import Mathlib

/-!
Verification of the concurrent task-processing core of the file-downloader
service (packages `domain`, `repository`, `service`).

Go strings are modelled as lists of characters (`GoStr`); Go `int`/`int64`
fields as `Int` carrying the two's-complement value.  Where the source
performs `int64` addition whose overflow behaviour matters — the
`totalSize` / `downloaded` accumulators of the aggregation loop — each step
is wrapped into `[-2^63, 2^63)` by an explicit `% 2^64` (`wrap64`), matching
Go's defined wraparound.  Go maps are modelled as association lists with replace-on-insert semantics
(`mapInsert` / `mapLookup`): one binding per key.  I/O effects (file-system
writes performed by `TaskStorage`, network calls performed by `Downloader`)
are modelled by explicit oracle parameters carrying the outcome of the call,
and persistence is recorded in a write log (`TMState.saved`).

The single floating-point expression of the core,
`int(float64(downloaded) / float64(totalSize) * 100)` in
`WorkerPool.updateTaskProgress`, is modelled in exact rational arithmetic as
truncated division `Int.tdiv (downloaded * 100) totalSize`; Go's `int(...)`
and `Int.tdiv` both truncate toward zero, so the two agree
whenever the float computation is exact, which is the case at every concrete
input evaluated below.
-/

/-- Go strings, modelled as character lists so that `strings.Split` can be
reasoned about structurally.  `len` is character count (byte count for the
ASCII inputs appearing in all concrete statements). -/
abbrev GoStr := List Char

namespace domain

/-- Model of `domain.Status`: the four file/task states. -/
inductive Status where
  | pending
  | downloading
  | completed
  | failed
deriving DecidableEq

/-- Model of `domain.File`: one download unit (`internal/domain`).  The `CreatedAt`
timestamp is omitted: it is never read by any modelled operation. -/
structure File where
  url : GoStr
  filename : GoStr
  status : Status
  size : Int
  downloaded : Int
deriving DecidableEq

/-- Model of `domain.Task`: a batch of files (`internal/domain`).  `CreatedAt`
omitted as for `File`. -/
structure Task where
  id : GoStr
  urls : List GoStr
  status : Status
  files : List File
  progress : Int
deriving DecidableEq

end domain

open domain

/-- Lookup in an association-list model of a Go map. -/
def mapLookup (m : List (GoStr × Task)) (k : GoStr) : Option Task :=
  match m with
  | [] => none
  | (k', v) :: rest => if k' = k then some v else mapLookup rest k

/-- Insert/overwrite in an association-list model of a Go map: replaces the
existing binding of the key, if any, keeping one binding per key. -/
def mapInsert (m : List (GoStr × Task)) (k : GoStr) (v : Task) : List (GoStr × Task) :=
  match m with
  | [] => [(k, v)]
  | (k', v') :: rest => if k' = k then (k, v) :: rest else (k', v') :: mapInsert rest k v

/-- In-place update of the element at index `i` (a Go write through a
`&files[i]` pointer). Out-of-range indices leave the list unchanged. -/
def modifyIdx (l : List File) (i : Nat) (g : File → File) : List File :=
  match l, i with
  | [], _ => []
  | x :: xs, 0 => g x :: xs
  | x :: xs, Nat.succ n => x :: modifyIdx xs n g

/-- Model of `strings.Split(s, sep)` for a one-character separator: splits around
each occurrence of `sep`, keeping empty segments; the result is never
empty. -/
def splitOnChar (sep : Char) : GoStr → List GoStr
  | [] => [[]]
  | c :: rest =>
    if c = sep then
      [] :: splitOnChar sep rest
    else
      match splitOnChar sep rest with
      | [] => [[c]]
      | s :: ss => (c :: s) :: ss

/-- Combined state of `TaskManager` and its `TaskStorage`: the in-memory
registry map plus the log of task records handed to the storage layer
(`SaveTask`/`UpdateTask` write calls, in call order). -/
structure TMState where
  tasks : List (GoStr × Task)
  saved : List Task
deriving DecidableEq

/-- Two's-complement wraparound of a Go `int64` addition result: reduce
into `[-2^63, 2^63)` modulo `2^64` (the literals are `2^63` and `2^64`). -/
def wrap64 (x : Int) : Int :=
  (x + 9223372036854775808) % 18446744073709551616 - 9223372036854775808

namespace WorkerPool

/-- Accumulation of `totalSize` in the aggregation loop of
`WorkerPool.updateTaskProgress`: the Go accumulator is an `int64`, so every
`+=` wraps (`wrap64`). -/
def sumSizes (files : List File) : Int :=
  files.foldl (fun acc f => wrap64 (acc + f.size)) 0

/-- Accumulation of `downloaded` in the aggregation loop, wrapping as an
`int64` like `sumSizes`. -/
def sumDownloaded (files : List File) : Int :=
  files.foldl (fun acc f => wrap64 (acc + f.downloaded)) 0

/-- The `allCompleted` flag of the aggregation loop: no file has a status
other than completed. -/
def allCompleted (files : List File) : Bool :=
  files.all (fun f => f.status == Status.completed)

/-- The `anyInProgress` flag of the aggregation loop: some file is currently
downloading. -/
def anyInProgress (files : List File) : Bool :=
  files.any (fun f => f.status == Status.downloading)

/-- The `completed` counter of the fallback branch. -/
def countCompleted (files : List File) : Nat :=
  files.foldl (fun acc f => if f.status = Status.completed then acc + 1 else acc) 0

/-- Pure core of `WorkerPool.updateTaskProgress` (part_003 lines 157-209):
the transformation applied to the task found in the registry.  The float
progress expression is modelled by exact truncated division (see header). -/
def updateTaskProgress (t : Task) : Task :=
  let totalSize := sumSizes t.files
  let downloaded := sumDownloaded t.files
  let progress :=
    if 0 < totalSize then
      Int.tdiv (downloaded * 100) totalSize
    else
      if 0 < t.files.length then
        Int.tdiv ((countCompleted t.files : Int) * 100) (t.files.length : Int)
      else
        t.progress
  let status :=
    if allCompleted t.files then Status.completed
    else if anyInProgress t.files then Status.downloading
    else if 0 < progress then Status.downloading
    else Status.pending
  { t with progress := progress, status := status }

end WorkerPool

namespace TaskManager

/-- Package-level `extractFilename` of the service package (part_004 lines
119-129): last `/`-separated part of the URL, or the `"unknown_file"`
sentinel when it is empty.  `strings.Split` on a one-character separator is
modelled by `splitOnChar` below; `len(parts) > 0` always holds, matching the
`getLast?`-is-`some` branch. -/
def extractFilename (url : GoStr) : GoStr :=
  let parts := splitOnChar '/' url
  match parts.getLast? with
  | some filename => if filename = [] then ("unknown_file".toList) else filename
  | none => ("unknown_file".toList)

/-- Model of `TaskManager.CreateTask` (part_004 lines 47-76).  `generateTaskID` draws
on the wall clock, and `storage.SaveTask` performs file I/O; both are
supplied as oracle parameters (`taskID`, `saveOk`).  Returns the created
task (`none` on error, as the Go `nil, err`) and the successor state.  Note
the order of operations in the source: the task is inserted into the
registry map before `SaveTask` is attempted, and the error path does not
remove it. -/
def CreateTask (st : TMState) (urls : List GoStr) (taskID : GoStr) (saveOk : Bool) :
    Option Task × TMState :=
  let files := urls.map (fun url =>
    { url := url, filename := extractFilename url, status := Status.pending,
      size := 0, downloaded := 0 })
  let task : Task :=
    { id := taskID, urls := urls, status := Status.pending, files := files, progress := 0 }
  let st1 : TMState := { st with tasks := mapInsert st.tasks taskID task }
  if saveOk then
    (some task, { st1 with saved := st1.saved ++ [task] })
  else
    (none, st1)

/-- Model of `TaskManager.GetTask` (part_004 lines 79-85): map lookup under the read
lock; the boolean found flag is the `Option` discriminant. -/
def GetTask (st : TMState) (taskID : GoStr) : Option Task :=
  mapLookup st.tasks taskID

/-- Model of `TaskManager.GetAllTasks` (part_004 lines 102-111): a shallow copy of
the registry map; in value semantics, the map itself. -/
def GetAllTasks (st : TMState) : List (GoStr × Task) :=
  st.tasks

/-- Model of `TaskManager.UpdateTask` (part_004 lines 88-99): overwrite the
in-memory entry, then persist through `storage.UpdateTask`.  The write
attempt is recorded in the `saved` log; an I/O failure changes the returned
error but not the registry state, and no modelled claim depends on it, so
the log records the attempt unconditionally. -/
def UpdateTask (st : TMState) (task : Task) : TMState :=
  { tasks := mapInsert st.tasks task.id task, saved := st.saved ++ [task] }

/-- Whether a task counts as incomplete for recovery (part_003 line 226):
status pending or downloading. -/
def isIncomplete (t : Task) : Bool :=
  t.status == Status.pending || t.status == Status.downloading

/-- The per-file reset of the recovery loop (part_003 lines 231-236): files
not yet completed return to pending with `Downloaded = 0`. -/
def recoverFile (f : File) : File :=
  if f.status ≠ Status.completed then
    { f with status := Status.pending, downloaded := 0 }
  else
    f

/-- The per-task reset of the recovery loop (part_003 lines 228-236). -/
def recoverTask (t : Task) : Task :=
  { t with status := Status.pending, progress := 0, files := t.files.map recoverFile }

/-- One iteration of the loop of `RecoverIncompleteTasks` on the snapshot
entry `e`: incomplete tasks are reset in place and pushed through
`UpdateTask`; all others are left alone. -/
def recoverStep (st : TMState) (e : GoStr × Task) : TMState :=
  if isIncomplete e.2 then UpdateTask st (recoverTask e.2) else st

/-- Model of `TaskManager.RecoverIncompleteTasks` (part_003 lines 219-247): iterate
over the `GetAllTasks` snapshot taken at entry.  Go map iteration order is
unspecified; the model folds in list order (each iteration touches only its
own key, so for registries with one binding per key the order is
immaterial to the properties stated below). -/
def RecoverIncompleteTasks (st : TMState) : TMState :=
  List.foldl recoverStep st (GetAllTasks st)

end TaskManager

namespace TaskStorage

/-- Model of `TaskStorage.SaveTask` (part_000 lines 189-210): create the state dir,
serialize, write `<id>.json`.  The store is modelled as a map from task id
to the last record written; serialization is the identity on the modelled
fields (JSON round-trip abstracted away); directory-creation, marshal and
write failures are collapsed into one oracle `ioErr`, returned verbatim. -/
def SaveTask (ioErr : Option GoStr) (store : List (GoStr × Task)) (task : Task) :
    Except GoStr (List (GoStr × Task)) :=
  match ioErr with
  | some e => Except.error e
  | none => Except.ok (mapInsert store task.id task)

/-- Model of `TaskStorage.UpdateTask` (part_000 lines 292-294): delegates to
`SaveTask` unchanged. -/
def UpdateTask (ioErr : Option GoStr) (store : List (GoStr × Task)) (task : Task) :
    Except GoStr (List (GoStr × Task)) :=
  SaveTask ioErr store task

end TaskStorage

namespace Downloader

/-- The `fmt.Sprintf("file_%d", len(u))` sentinel of
`Downloader.ExtractFilename`. -/
def fileSentinel (u : GoStr) : GoStr :=
  "file_".toList ++ (Nat.toDigits 10 u.length)

/-- Model of `Downloader.ExtractFilename` (graceful_shutdown.go lines 199-214).
`neturl.Parse` is a stdlib call, modelled by the oracle `parsed`: `.error`
for a parse failure, `.ok p` for a successful parse with `Path` field `p`. -/
def ExtractFilename (parsed : Except Unit GoStr) (u : GoStr) : GoStr :=
  match parsed with
  | Except.error _ => fileSentinel u
  | Except.ok p =>
    if p = [] ∨ p = ['/'] then
      fileSentinel u
    else
      let segs := splitOnChar '/' p
      match segs.getLast? with
      | none => fileSentinel u
      | some name => if name = [] then fileSentinel u else name

end Downloader

namespace WorkerPool

/-- A queued download unit (`DownloadTask`, part_003 lines 11-14).  The Go
struct holds a `*domain.File` pointing at `task.Files[i]` of the registry's
live task; in value semantics the pointer is the pair (owning task id,
index into its `Files` slice). -/
structure DownloadUnit where
  taskID : GoStr
  fileIdx : Nat
deriving DecidableEq

/-- The observable state of the pool's admission path: whether the shared
cancellation context has fired, the buffered channel contents, and its
capacity (`workers*2` at construction). -/
structure PoolState where
  cancelled : Bool
  queue : List DownloadUnit
  capacity : Nat
deriving DecidableEq

/-- Outcome of one `AddTask` call. -/
inductive AddOutcome where
  | enqueued
  | rejected
  | dropped
deriving DecidableEq

/-- Model of `WorkerPool.AddTask` (part_003 lines 132-141): a `select` with a send
case, a `<-ctx.Done()` case and a `default` case.  Per the Go language
specification, when more than one non-default communication is ready the
executed case is chosen by uniform pseudo-random selection; `pick` is that
scheduler choice (`true` selects the send) and is consulted only when both
the send and the done case are ready.  `default` runs only when neither is
ready, so the call never blocks, and the function returns no error.  (The
post-`Stop` state, where the channel is closed and a selected send would
panic, is outside this model: `cancelled` tracks only the context.) -/
def AddTask (st : PoolState) (u : DownloadUnit) (pick : Bool) : AddOutcome × PoolState :=
  let sendReady := st.queue.length < st.capacity
  if st.cancelled ∧ sendReady then
    if pick then
      (AddOutcome.enqueued, { st with queue := st.queue ++ [u] })
    else
      (AddOutcome.rejected, st)
  else if st.cancelled then
    (AddOutcome.rejected, st)
  else if sendReady then
    (AddOutcome.enqueued, { st with queue := st.queue ++ [u] })
  else
    (AddOutcome.dropped, st)

/-- Outcomes of the two network calls a worker makes for one unit
(`Downloader.GetFileSize`, then `Downloader.DownloadFile`), supplied as an
oracle: an error message or, respectively, the reported content length and
the final saved filename. -/
structure DownloadOracle where
  sizeResult : Except GoStr Int
  downloadResult : Except GoStr GoStr

/-- Write to the file a unit points at (a Go write through the stored
`*domain.File`): visible in the registry's live task. -/
def setFile (st : TMState) (u : DownloadUnit) (g : File → File) : TMState :=
  match mapLookup st.tasks u.taskID with
  | none => st
  | some t =>
    { st with tasks := mapInsert st.tasks u.taskID { t with files := modifyIdx t.files u.fileIdx g } }

/-- Registry-level `WorkerPool.updateTaskProgress` (part_003 lines 157-164
around the pure core): look the task up; silently return when absent;
otherwise recompute and push through `TaskManager.UpdateTask`.  (The
`wp.tm == nil` guard is dropped: the model always carries a manager.) -/
def updateTaskProgressOn (st : TMState) (taskID : GoStr) : TMState :=
  match mapLookup st.tasks taskID with
  | none => st
  | some t => TaskManager.UpdateTask st (updateTaskProgress t)

/-- Model of `WorkerPool.processTask` (part_003 lines 100-129) acting on the shared
state: mark downloading; probe the size, failing the file on error; record
the size; fetch, failing the file on error; on success mark completed, set
`downloaded = size` and the saved filename, then reaggregate and persist
the owning task. -/
def processTask (o : DownloadOracle) (st : TMState) (u : DownloadUnit) : TMState :=
  let st1 := setFile st u (fun f => { f with status := Status.downloading })
  match o.sizeResult with
  | Except.error _ => setFile st1 u (fun f => { f with status := Status.failed })
  | Except.ok size =>
    let st2 := setFile st1 u (fun f => { f with size := size })
    match o.downloadResult with
    | Except.error _ => setFile st2 u (fun f => { f with status := Status.failed })
    | Except.ok savedName =>
      let st3 := setFile st2 u (fun f =>
        { f with status := Status.completed, downloaded := f.size, filename := savedName })
      updateTaskProgressOn st3 u.taskID

end WorkerPool

/-- Well-formedness of the registry map, maintained by construction in the
running program: one binding per key, and every task is bound under its own
`ID` (both `CreateTask` and `UpdateTask` insert `task` at key `task.ID`). -/
def WFreg (m : List (GoStr × Task)) : Prop :=
  (m.map Prod.fst).Nodup ∧ ∀ p ∈ m, p.2.id = p.1

instance (m : List (GoStr × Task)) : Decidable (WFreg m) := by
  unfold WFreg
  infer_instance

/-! ## Arithmetic helpers for the progress computation -/

theorem tdiv_hundred_nonneg (d t : Int) (h0 : 0 ≤ d) (h2 : 0 ≤ t) :
    0 ≤ Int.tdiv (d * 100) t := by
  obtain ⟨m, rfl⟩ : ∃ m : Nat, d = ↑m := ⟨d.toNat, (Int.toNat_of_nonneg h0).symm⟩
  obtain ⟨n, rfl⟩ : ∃ n : Nat, t = ↑n := ⟨t.toNat, (Int.toNat_of_nonneg h2).symm⟩
  rw [show ((m : Int) * 100) = ((m * 100 : Nat) : Int) by push_cast; ring, ← Int.ofNat_tdiv]
  exact Int.ofNat_nonneg _

theorem tdiv_hundred_le (d t : Int) (h0 : 0 ≤ d) (h1 : d ≤ t) (h2 : 0 < t) :
    Int.tdiv (d * 100) t ≤ 100 := by
  obtain ⟨m, rfl⟩ : ∃ m : Nat, d = ↑m := ⟨d.toNat, (Int.toNat_of_nonneg h0).symm⟩
  obtain ⟨n, rfl⟩ : ∃ n : Nat, t = ↑n := ⟨t.toNat, (Int.toNat_of_nonneg (le_of_lt h2)).symm⟩
  rw [show ((m : Int) * 100) = ((m * 100 : Nat) : Int) by push_cast; ring, ← Int.ofNat_tdiv]
  have hn : 0 < n := by exact_mod_cast h2
  have hmn : m ≤ n := by exact_mod_cast h1
  have : m * 100 / n ≤ 100 := by
    calc m * 100 / n ≤ n * 100 / n := Nat.div_le_div_right (Nat.mul_le_mul_right 100 hmn)
    _ = 100 := Nat.mul_div_cancel_left 100 hn
  exact_mod_cast this

theorem tdiv_hundred_self (t : Int) (h : 0 < t) : Int.tdiv (t * 100) t = 100 := by
  obtain ⟨n, rfl⟩ : ∃ n : Nat, t = ↑n := ⟨t.toNat, (Int.toNat_of_nonneg (le_of_lt h)).symm⟩
  rw [show ((n : Int) * 100) = ((n * 100 : Nat) : Int) by push_cast; ring, ← Int.ofNat_tdiv]
  have hn : 0 < n := by exact_mod_cast h
  rw [Nat.mul_div_cancel_left 100 hn]
  rfl

/-! ## Facts about the aggregation loop accumulators -/

theorem wrap64_eq_self (x : Int) (h0 : -9223372036854775808 ≤ x)
    (h1 : x < 9223372036854775808) : wrap64 x = x := by
  unfold wrap64
  omega

theorem foldl_wrap_sum (F : File → Int) (l : List File) :
    ∀ acc : Int, 0 ≤ acc → (∀ f ∈ l, 0 ≤ F f) →
      acc + (l.map F).sum < 9223372036854775808 →
      l.foldl (fun a f => wrap64 (a + F f)) acc = acc + (l.map F).sum := by
  induction l with
  | nil => intro acc _ _ _; simp
  | cons x xs ih =>
    intro acc hacc hpos hbound
    simp only [List.map_cons, List.sum_cons] at hbound
    simp only [List.foldl_cons, List.map_cons, List.sum_cons]
    have hx : 0 ≤ F x := hpos x (List.mem_cons_self x xs)
    have hxs : 0 ≤ (xs.map F).sum := List.sum_nonneg (by
      intro a ha
      obtain ⟨f, hf, rfl⟩ := List.mem_map.mp ha
      exact hpos f (List.mem_cons_of_mem x hf))
    rw [wrap64_eq_self (acc + F x) (by omega) (by omega),
      ih (acc + F x) (by omega) (fun f hf => hpos f (List.mem_cons_of_mem x hf)) (by omega)]
    ring

theorem foldl_wrap_congr (F G : File → Int) (l : List File)
    (h : ∀ f ∈ l, F f = G f) :
    ∀ acc : Int,
      l.foldl (fun a f => wrap64 (a + F f)) acc =
        l.foldl (fun a f => wrap64 (a + G f)) acc := by
  induction l with
  | nil => intro acc; rfl
  | cons x xs ih =>
    intro acc
    simp only [List.foldl_cons]
    rw [h x (List.mem_cons_self x xs)]
    exact ih (fun f hf => h f (List.mem_cons_of_mem x hf)) _

theorem foldl_count_le (l : List File) (p : File → Prop) [DecidablePred p] :
    ∀ a : Nat, l.foldl (fun acc f => if p f then acc + 1 else acc) a ≤ a + l.length := by
  induction l with
  | nil => intro a; simp
  | cons x xs ih =>
    intro a
    simp only [List.foldl_cons, List.length_cons]
    by_cases hx : p x
    · simpa [hx] using Nat.le_trans (ih (a + 1)) (by omega)
    · simpa [hx] using Nat.le_trans (ih a) (by omega)

theorem foldl_count_all (l : List File) (p : File → Prop) [DecidablePred p]
    (h : ∀ f ∈ l, p f) :
    ∀ a : Nat, l.foldl (fun acc f => if p f then acc + 1 else acc) a = a + l.length := by
  induction l with
  | nil => intro a; simp
  | cons x xs ih =>
    intro a
    have hx : p x := h x (List.mem_cons_self x xs)
    simp only [List.foldl_cons, List.length_cons, if_pos hx]
    rw [ih (fun f hf => h f (List.mem_cons_of_mem x hf)) (a + 1)]
    omega

/-! ## C2: bounds on the recomputed progress -/

/-- C2, counterexample.  The claim quantifies over every combination of the
files' `Size`, `Downloaded` and `Status` fields, explicitly allowing the
unknown-size values `-1`/`0`.  With one completed 2-byte file and one file
of unknown size `-1` still downloading, `totalSize` is `1`, `downloaded` is
`2`, and the aggregation pass sets `progress = 200`, outside `[0, 100]`. -/
theorem updateTaskProgress_exceeds_100 :
    ¬ (0 ≤ (WorkerPool.updateTaskProgress
        { id := ['t'], urls := [], status := Status.pending,
          files := [{ url := [], filename := [], status := Status.downloading,
                      size := -1, downloaded := 0 },
                    { url := [], filename := [], status := Status.completed,
                      size := 2, downloaded := 2 }],
          progress := 0 }).progress ∧
      (WorkerPool.updateTaskProgress
        { id := ['t'], urls := [], status := Status.pending,
          files := [{ url := [], filename := [], status := Status.downloading,
                      size := -1, downloaded := 0 },
                    { url := [], filename := [], status := Status.completed,
                      size := 2, downloaded := 2 }],
          progress := 0 }).progress ≤ 100) := by
  decide

/-- C2 (amended): if every file satisfies `0 ≤ Downloaded ≤ Size` (so sizes
are not the unknown sentinel `-1`), the true sum of the sizes stays below
`2^63` (so the `int64` accumulators `totalSize` and `downloaded` do not
wrap), and the task's prior progress is already in `[0, 100]` (needed only
for the zero-file case, where the pass leaves progress untouched), then
after one run of `updateTaskProgress` the task's progress lies in
`[0, 100]`. -/
theorem updateTaskProgress_progress_bounds (t : Task)
    (hf : ∀ f ∈ t.files, 0 ≤ f.downloaded ∧ f.downloaded ≤ f.size)
    (hnov : (t.files.map (fun f => f.size)).sum < 9223372036854775808)
    (hp : 0 ≤ t.progress ∧ t.progress ≤ 100) :
    0 ≤ (WorkerPool.updateTaskProgress t).progress ∧
      (WorkerPool.updateTaskProgress t).progress ≤ 100 := by
  have hsz : ∀ f ∈ t.files, (0 : Int) ≤ f.size :=
    fun f hf' => le_trans (hf f hf').1 (hf f hf').2
  have hsums : 0 ≤ (t.files.map (fun f => f.size)).sum := List.sum_nonneg (by
    intro a ha
    obtain ⟨f, hfm, rfl⟩ := List.mem_map.mp ha
    exact hsz f hfm)
  have hsumd_le : (t.files.map (fun f => f.downloaded)).sum ≤
      (t.files.map (fun f => f.size)).sum :=
    List.sum_le_sum (fun f hf' => (hf f hf').2)
  have hsumd : 0 ≤ (t.files.map (fun f => f.downloaded)).sum := List.sum_nonneg (by
    intro a ha
    obtain ⟨f, hfm, rfl⟩ := List.mem_map.mp ha
    exact (hf f hfm).1)
  have hS : WorkerPool.sumSizes t.files = (t.files.map (fun f => f.size)).sum := by
    have := foldl_wrap_sum (fun f => f.size) t.files 0 le_rfl hsz (by omega)
    simpa [WorkerPool.sumSizes] using this
  have hD : WorkerPool.sumDownloaded t.files =
      (t.files.map (fun f => f.downloaded)).sum := by
    have := foldl_wrap_sum (fun f => f.downloaded) t.files 0 le_rfl
      (fun f hf' => (hf f hf').1) (by omega)
    simpa [WorkerPool.sumDownloaded] using this
  have hd0 : 0 ≤ WorkerPool.sumDownloaded t.files := by rw [hD]; exact hsumd
  have hds : WorkerPool.sumDownloaded t.files ≤ WorkerPool.sumSizes t.files := by
    rw [hD, hS]; exact hsumd_le
  have hcnt : WorkerPool.countCompleted t.files ≤ t.files.length := by
    simpa using foldl_count_le t.files (fun f => f.status = Status.completed) 0
  simp only [WorkerPool.updateTaskProgress]
  split
  · next hpos =>
    exact ⟨tdiv_hundred_nonneg _ _ hd0 (le_of_lt hpos),
      tdiv_hundred_le _ _ hd0 hds hpos⟩
  · split
    · next hlen =>
      refine ⟨tdiv_hundred_nonneg _ _ (by positivity) (by positivity), ?_⟩
      exact tdiv_hundred_le _ _ (by positivity) (by exact_mod_cast hcnt)
        (by exact_mod_cast hlen)
    · exact hp

/-- C2 witness: a task with two fully-known files, one of them finished. -/
theorem updateTaskProgress_progress_bounds_witness :
    0 ≤ (WorkerPool.updateTaskProgress
      { id := ['t'], urls := [], status := Status.pending,
        files := [{ url := [], filename := [], status := Status.completed,
                    size := 2, downloaded := 2 },
                  { url := [], filename := [], status := Status.pending,
                    size := 2, downloaded := 0 }],
        progress := 0 }).progress ∧
    (WorkerPool.updateTaskProgress
      { id := ['t'], urls := [], status := Status.pending,
        files := [{ url := [], filename := [], status := Status.completed,
                    size := 2, downloaded := 2 },
                  { url := [], filename := [], status := Status.pending,
                    size := 2, downloaded := 0 }],
        progress := 0 }).progress ≤ 100 :=
  updateTaskProgress_progress_bounds _ (by decide) (by decide) (by decide)

/-! ## C3: the zero-file task under aggregation -/

/-- C3, counterexample.  On a task with no files the aggregation pass does
leave progress at `0`, but the `allCompleted` flag of the loop is vacuously
`true`, so the task status is set to `completed`, not left `pending` as the
claim states. -/
theorem updateTaskProgress_empty_not_pending :
    (WorkerPool.updateTaskProgress
      { id := ['t'], urls := [], status := Status.pending, files := [],
        progress := 0 }).status = Status.completed ∧
    Status.completed ≠ Status.pending := by
  decide

/-- C3 (amended): on a task with no files the aggregation pass performs no
division (neither the size-weighted nor the count-based quotient is
evaluated), leaves progress unchanged — in particular `0` stays `0` — and
sets the task status to `completed` (vacuous `allCompleted`), not
`pending`. -/
theorem updateTaskProgress_empty (t : Task) (h : t.files = []) :
    WorkerPool.updateTaskProgress t = { t with status := Status.completed } := by
  simp [WorkerPool.updateTaskProgress, h, WorkerPool.sumSizes, WorkerPool.allCompleted]

/-- C3 witness: the empty pending task. -/
theorem updateTaskProgress_empty_witness :
    WorkerPool.updateTaskProgress
        { id := ['t'], urls := [], status := Status.pending, files := [], progress := 0 }
      = { id := ['t'], urls := [], status := Status.completed, files := [], progress := 0 } :=
  updateTaskProgress_empty _ rfl

/-! ## C5: status derivation priority order -/

/-- C5: the aggregation pass derives the task status in priority order —
all files completed, else any file downloading, else recomputed progress
positive, else pending — and on the spec's concrete two-file boundary case
(file 0 completed with size 2, file 1 failed) it yields status
`downloading` with the files untouched. -/
theorem updateTaskProgress_status_derivation :
    (∀ t : Task,
      (WorkerPool.updateTaskProgress t).status =
        (if WorkerPool.allCompleted t.files then Status.completed
         else if WorkerPool.anyInProgress t.files then Status.downloading
         else if 0 < (WorkerPool.updateTaskProgress t).progress then Status.downloading
         else Status.pending)) ∧
    ((WorkerPool.updateTaskProgress
        { id := ['t'], urls := [], status := Status.pending,
          files := [{ url := ['A'], filename := [], status := Status.completed,
                      size := 2, downloaded := 2 },
                    { url := ['B'], filename := [], status := Status.failed,
                      size := 0, downloaded := 0 }],
          progress := 0 }).status = Status.downloading ∧
      (WorkerPool.updateTaskProgress
        { id := ['t'], urls := [], status := Status.pending,
          files := [{ url := ['A'], filename := [], status := Status.completed,
                      size := 2, downloaded := 2 },
                    { url := ['B'], filename := [], status := Status.failed,
                      size := 0, downloaded := 0 }],
          progress := 0 }).files =
        [{ url := ['A'], filename := [], status := Status.completed,
           size := 2, downloaded := 2 },
         { url := ['B'], filename := [], status := Status.failed,
           size := 0, downloaded := 0 }]) := by
  constructor
  · intro t
    rfl
  · constructor
    · decide
    · decide

/-! ## C6: fully completed tasks aggregate to 100 / completed -/

/-- C6: for a non-empty task in which every file is completed with
`downloaded = size`, one aggregation pass yields progress `100` and status
`completed`, whether the sizes are known (positive) or unknown (`-1`/`0`):
when the size sum is positive the size-weighted quotient is `100`, and
otherwise the count-based fallback is `100`. -/
theorem updateTaskProgress_allCompleted (t : Task) (hne : t.files ≠ [])
    (h : ∀ f ∈ t.files, f.status = Status.completed ∧ f.downloaded = f.size) :
    (WorkerPool.updateTaskProgress t).progress = 100 ∧
      (WorkerPool.updateTaskProgress t).status = Status.completed := by
  have hall : WorkerPool.allCompleted t.files = true := by
    simp only [WorkerPool.allCompleted, List.all_eq_true, beq_iff_eq]
    exact fun f hf => (h f hf).1
  have hsum : WorkerPool.sumDownloaded t.files = WorkerPool.sumSizes t.files :=
    foldl_wrap_congr (fun f => f.downloaded) (fun f => f.size) t.files
      (fun f hf => (h f hf).2) 0
  have hcnt : WorkerPool.countCompleted t.files = t.files.length := by
    simpa using foldl_count_all t.files (fun f => f.status = Status.completed)
      (fun f hf => (h f hf).1) 0
  have hlen : 0 < t.files.length := List.length_pos.mpr hne
  constructor
  · simp only [WorkerPool.updateTaskProgress]
    split
    · next hpos =>
      rw [hsum]
      exact tdiv_hundred_self _ hpos
    · rw [hcnt]
      exact tdiv_hundred_self _ (by exact_mod_cast hlen)
  · simp [WorkerPool.updateTaskProgress, hall]

/-- C6 witness: a two-file task, one file of known size `3`, one of unknown
size `-1`, both completed with `downloaded = size`. -/
theorem updateTaskProgress_allCompleted_witness :
    (WorkerPool.updateTaskProgress
      { id := ['t'], urls := [], status := Status.downloading,
        files := [{ url := [], filename := [], status := Status.completed,
                    size := 3, downloaded := 3 },
                  { url := [], filename := [], status := Status.completed,
                    size := -1, downloaded := -1 }],
        progress := 50 }).progress = 100 ∧
    (WorkerPool.updateTaskProgress
      { id := ['t'], urls := [], status := Status.downloading,
        files := [{ url := [], filename := [], status := Status.completed,
                    size := 3, downloaded := 3 },
                  { url := [], filename := [], status := Status.completed,
                    size := -1, downloaded := -1 }],
        progress := 50 }).status = Status.completed :=
  updateTaskProgress_allCompleted _ (by decide) (by decide)

/-! ## C1: CreateTask under persistence failure -/

/-- C1: `TaskManager.CreateTask` registers the task in the map before
attempting `storage.SaveTask` (part_004 lines 66-73), and the error path
returns the error without removing the entry.  Evaluated at a failing
persistence write: the caller receives the error (`none`), yet `GetTask` on
the generated ID finds the task and `GetAllTasks` contains it — the claim's
atomicity (and the spec's stated design requirement) is violated. -/
theorem createTask_saveFail_still_registered :
    (TaskManager.CreateTask { tasks := [], saved := [] }
        ["http://example.com/a.txt".toList] ("task_1".toList) false).1 = none ∧
    TaskManager.GetTask
        (TaskManager.CreateTask { tasks := [], saved := [] }
          ["http://example.com/a.txt".toList] ("task_1".toList) false).2
        "task_1".toList =
      some { id := "task_1".toList, urls := ["http://example.com/a.txt".toList],
             status := Status.pending,
             files := [{ url := "http://example.com/a.txt".toList,
                         filename := "a.txt".toList, status := Status.pending,
                         size := 0, downloaded := 0 }],
             progress := 0 } ∧
    ("task_1".toList,
      ({ id := "task_1".toList, urls := ["http://example.com/a.txt".toList],
         status := Status.pending,
         files := [{ url := "http://example.com/a.txt".toList,
                     filename := "a.txt".toList, status := Status.pending,
                     size := 0, downloaded := 0 }],
         progress := 0 } : Task)) ∈
      TaskManager.GetAllTasks
        (TaskManager.CreateTask { tasks := [], saved := [] }
          ["http://example.com/a.txt".toList] ("task_1".toList) false).2 := by
  decide

/-! ## C4: AddTask admission policy -/

/-- C4, counterexample.  `AddTask` is a `select` whose ready case is chosen
by uniform pseudo-random selection, not in priority order: when the
cancellation signal has fired while the queue still has capacity, the
scheduler may select the send case, so the unit is enqueued rather than
rejected.  Concretely, in a cancelled pool of capacity 2 with an empty
queue and the send case selected, the outcome is `enqueued`. -/
theorem addTask_cancelled_can_enqueue :
    (WorkerPool.AddTask { cancelled := true, queue := [], capacity := 2 }
        { taskID := ['t'], fileIdx := 0 } true).1 = WorkerPool.AddOutcome.enqueued ∧
    WorkerPool.AddOutcome.enqueued ≠ WorkerPool.AddOutcome.rejected := by
  decide

/-- C4 (amended): the call never blocks (it is a total function of the
state) and never returns an error; (a) holds as stated only when the queue
is also full — if the cancellation signal has fired and the queue is full
the unit is rejected; if the signal has fired but the queue has capacity,
the unit is nondeterministically either rejected or enqueued (scheduler's
choice between the two ready `select` cases); (b) if not cancelled and the
queue has capacity, the unit is enqueued; (c) if not cancelled and the
queue is full, the unit is dropped silently. -/
theorem addTask_cases (st : WorkerPool.PoolState) (u : WorkerPool.DownloadUnit)
    (pick : Bool) :
    (st.cancelled = true → st.capacity ≤ st.queue.length →
      WorkerPool.AddTask st u pick = (WorkerPool.AddOutcome.rejected, st)) ∧
    (st.cancelled = true → st.queue.length < st.capacity →
      WorkerPool.AddTask st u pick = (WorkerPool.AddOutcome.rejected, st) ∨
      WorkerPool.AddTask st u pick =
        (WorkerPool.AddOutcome.enqueued, { st with queue := st.queue ++ [u] })) ∧
    (st.cancelled = false → st.queue.length < st.capacity →
      WorkerPool.AddTask st u pick =
        (WorkerPool.AddOutcome.enqueued, { st with queue := st.queue ++ [u] })) ∧
    (st.cancelled = false → st.capacity ≤ st.queue.length →
      WorkerPool.AddTask st u pick = (WorkerPool.AddOutcome.dropped, st)) := by
  refine ⟨?_, ?_, ?_, ?_⟩ <;> intro h1 h2
  · simp [WorkerPool.AddTask, h1, Nat.not_lt.mpr h2]
  · cases pick
    · left
      simp [WorkerPool.AddTask, h1, h2]
    · right
      simp [WorkerPool.AddTask, h1, h2]
  · simp [WorkerPool.AddTask, h1, h2]
  · simp [WorkerPool.AddTask, h1, Nat.not_lt.mpr h2]

/-- C4 witness: a cancelled pool with a full queue rejects the unit. -/
theorem addTask_cases_witness :
    WorkerPool.AddTask
        { cancelled := true, queue := [{ taskID := ['t'], fileIdx := 0 }], capacity := 1 }
        { taskID := ['t'], fileIdx := 1 } true =
      (WorkerPool.AddOutcome.rejected,
        { cancelled := true, queue := [{ taskID := ['t'], fileIdx := 0 }], capacity := 1 }) :=
  (addTask_cases _ _ _).1 rfl (by decide)

/-! ## C8: storage update delegates to save -/

/-- C8: `TaskStorage.UpdateTask` is extensionally `TaskStorage.SaveTask` —
for every I/O outcome, store and task, both produce the same stored record
and the same returned error (the source delegates in one line, full
overwrite semantics). -/
theorem storageUpdateTask_eq_saveTask (ioErr : Option GoStr)
    (store : List (GoStr × Task)) (task : Task) :
    TaskStorage.UpdateTask ioErr store task = TaskStorage.SaveTask ioErr store task :=
  rfl

/-! ## Map and list update lemmas -/

theorem mapLookup_mapInsert_self (m : List (GoStr × Task)) (k : GoStr) (v : Task) :
    mapLookup (mapInsert m k v) k = some v := by
  induction m with
  | nil => simp [mapInsert, mapLookup]
  | cons p rest ih =>
    by_cases h : p.1 = k
    · simp [mapInsert, mapLookup, h]
    · simp [mapInsert, mapLookup, h, ih]

theorem mapLookup_mapInsert_ne (m : List (GoStr × Task)) (k k' : GoStr) (v : Task)
    (h : k ≠ k') :
    mapLookup (mapInsert m k v) k' = mapLookup m k' := by
  induction m with
  | nil => simp [mapInsert, mapLookup, h]
  | cons p rest ih =>
    by_cases hp : p.1 = k
    · simp [mapInsert, mapLookup, hp, h]
    · simp only [mapInsert, if_neg hp, mapLookup]
      by_cases hp' : p.1 = k'
      · simp [hp']
      · simp [hp', ih]

theorem mapInsert_mapInsert (m : List (GoStr × Task)) (k : GoStr) (v v' : Task) :
    mapInsert (mapInsert m k v) k v' = mapInsert m k v' := by
  induction m with
  | nil => simp [mapInsert]
  | cons p rest ih =>
    by_cases h : p.1 = k
    · simp [mapInsert, h]
    · simp [mapInsert, h, ih]

theorem modifyIdx_comp (l : List File) (i : Nat) (g h : File → File) :
    modifyIdx (modifyIdx l i g) i h = modifyIdx l i (fun f => h (g f)) := by
  induction l generalizing i with
  | nil => simp [modifyIdx]
  | cons x xs ih =>
    cases i with
    | zero => simp [modifyIdx]
    | succ n => simp [modifyIdx, ih]

/-! ## C9: frame property of a failed size probe -/

/-- C9: when the size probe fails, `processTask` marks the file failed and
changes nothing else: the file keeps its `Size`, `Downloaded` and
`Filename` (only `Status` is written — first `downloading`, then `failed`),
the owning task's `progress` and `status` fields are untouched, no
aggregation runs, and nothing is handed to the storage layer (the `saved`
log is unchanged, as the whole-state equality shows). -/
theorem processTask_probeFail (o : WorkerPool.DownloadOracle) (st : TMState)
    (id : GoStr) (i : Nat) (t : Task) (e : GoStr)
    (ht : mapLookup st.tasks id = some t)
    (he : o.sizeResult = Except.error e) :
    WorkerPool.processTask o st { taskID := id, fileIdx := i } =
      { st with
          tasks := mapInsert st.tasks id
            ({ t with
                files := modifyIdx t.files i
                  (fun f => { f with status := Status.failed }) }) } := by
  have h1 : WorkerPool.setFile st { taskID := id, fileIdx := i }
      (fun f => { f with status := Status.downloading }) =
      { st with
          tasks := mapInsert st.tasks id
            ({ t with
                files := modifyIdx t.files i
                  (fun f => { f with status := Status.downloading }) }) } := by
    simp [WorkerPool.setFile, ht]
  simp only [WorkerPool.processTask, he, h1]
  simp only [WorkerPool.setFile, mapLookup_mapInsert_self, mapInsert_mapInsert,
    modifyIdx_comp]

/-- C9 witness: one registered single-file task, probe returning an
error. -/
theorem processTask_probeFail_witness :
    WorkerPool.processTask
        { sizeResult := Except.error ("bad status code 404".toList),
          downloadResult := Except.ok [] }
        { tasks := [("t1".toList,
            { id := "t1".toList, urls := [], status := Status.pending,
              files := [{ url := ['B'], filename := ['b'], status := Status.pending,
                          size := 7, downloaded := 5 }],
              progress := 42 })],
          saved := [] }
        { taskID := "t1".toList, fileIdx := 0 } =
      { tasks := [("t1".toList,
          { id := "t1".toList, urls := [], status := Status.pending,
            files := [{ url := ['B'], filename := ['b'], status := Status.failed,
                        size := 7, downloaded := 5 }],
            progress := 42 })],
        saved := [] } := by
  rw [processTask_probeFail _ _ _ 0
    { id := "t1".toList, urls := [], status := Status.pending,
      files := [{ url := ['B'], filename := ['b'], status := Status.pending,
                  size := 7, downloaded := 5 }],
      progress := 42 } ("bad status code 404".toList) (by decide) rfl]
  decide

/-! ## C7: startup recovery -/

theorem recoverTask_id (t : Task) : (TaskManager.recoverTask t).id = t.id := rfl

theorem recover_foldl_saved (l : List (GoStr × Task)) :
    ∀ st : TMState,
      (List.foldl TaskManager.recoverStep st l).saved =
        st.saved ++ (l.filter (fun e => TaskManager.isIncomplete e.2)).map
          (fun e => TaskManager.recoverTask e.2) := by
  induction l with
  | nil => intro st; simp
  | cons e rest ih =>
    intro st
    by_cases h : TaskManager.isIncomplete e.2
    · simp only [List.foldl_cons, List.filter_cons, h, if_pos, List.map_cons]
      rw [ih]
      simp [TaskManager.recoverStep, h, TaskManager.UpdateTask]
    · simp only [List.foldl_cons, List.filter_cons]
      rw [if_neg (by simpa using h), ih]
      simp [TaskManager.recoverStep, h]

theorem recover_foldl_lookup_ne (l : List (GoStr × Task)) :
    ∀ (st : TMState) (id : GoStr), (∀ e ∈ l, e.2.id ≠ id) →
      mapLookup (List.foldl TaskManager.recoverStep st l).tasks id =
        mapLookup st.tasks id := by
  induction l with
  | nil => intro st id _; rfl
  | cons e rest ih =>
    intro st id h
    simp only [List.foldl_cons]
    rw [ih _ _ (fun e' he' => h e' (List.mem_cons_of_mem e he'))]
    by_cases hinc : TaskManager.isIncomplete e.2
    · simp only [TaskManager.recoverStep, if_pos hinc, TaskManager.UpdateTask]
      exact mapLookup_mapInsert_ne _ _ _ _
        (by rw [recoverTask_id]; exact h e (List.mem_cons_self e rest))
    · simp [TaskManager.recoverStep, hinc]

theorem mapLookup_split (m : List (GoStr × Task)) (id : GoStr) (t : Task)
    (h : mapLookup m id = some t) :
    ∃ l₁ l₂, m = l₁ ++ (id, t) :: l₂ ∧ ∀ e ∈ l₁, e.1 ≠ id := by
  induction m with
  | nil => simp [mapLookup] at h
  | cons p rest ih =>
    by_cases hp : p.1 = id
    · refine ⟨[], rest, ?_, by simp⟩
      have : p.2 = t := by
        simpa [mapLookup, hp] using h
      simp [← this, ← hp]
    · obtain ⟨l₁, l₂, hm, hl₁⟩ := ih (by simpa [mapLookup, hp] using h)
      exact ⟨p :: l₁, l₂, by simp [hm], by
        intro e he
        rcases List.mem_cons.mp he with rfl | he'
        · exact hp
        · exact hl₁ e he'⟩

/-- C7: `RecoverIncompleteTasks` on a well-formed registry.  The per-file
reset `recoverFile` sends every not-yet-completed file (failed ones
included) back to pending with `downloaded = 0` and keeps completed files
intact; every task whose status is pending or downloading is replaced in
the registry by its reset (status pending, progress 0, files reset) and
that reset record is handed to the storage layer; every task whose status
is completed keeps its registry entry unchanged, and no record bearing its
ID is written to storage. -/
theorem recoverIncompleteTasks_spec (st : TMState) (id : GoStr) (t : Task)
    (hwf : WFreg st.tasks) (ht : mapLookup st.tasks id = some t) :
    (∀ f : File,
      (f.status ≠ Status.completed →
        TaskManager.recoverFile f = { f with status := Status.pending, downloaded := 0 }) ∧
      (f.status = Status.completed → TaskManager.recoverFile f = f)) ∧
    (∀ u : Task,
      (TaskManager.recoverTask u).status = Status.pending ∧
      (TaskManager.recoverTask u).progress = 0 ∧
      (TaskManager.recoverTask u).files = u.files.map TaskManager.recoverFile ∧
      (TaskManager.recoverTask u).id = u.id ∧
      (TaskManager.recoverTask u).urls = u.urls) ∧
    ((t.status = Status.pending ∨ t.status = Status.downloading) →
      mapLookup (TaskManager.RecoverIncompleteTasks st).tasks id =
        some (TaskManager.recoverTask t) ∧
      TaskManager.recoverTask t ∈ (TaskManager.RecoverIncompleteTasks st).saved) ∧
    (t.status = Status.completed →
      mapLookup (TaskManager.RecoverIncompleteTasks st).tasks id = some t ∧
      ∀ t' ∈ (TaskManager.RecoverIncompleteTasks st).saved,
        t' ∈ st.saved ∨ t'.id ≠ id) := by
  obtain ⟨hnd, hids⟩ := hwf
  obtain ⟨l₁, l₂, hm, hl₁⟩ := mapLookup_split st.tasks id t ht
  have hmem_t : (id, t) ∈ st.tasks := by
    rw [hm]; exact List.mem_append_right _ (List.mem_cons_self _ _)
  have hid_t : t.id = id := hids (id, t) hmem_t
  have hl₂ : ∀ e ∈ l₂, e.1 ≠ id := by
    rw [hm] at hnd
    simp only [List.map_append, List.map_cons] at hnd
    have := (List.nodup_append.mp hnd).2.1
    intro e he heq
    exact (List.nodup_cons.mp this).1 (heq ▸ List.mem_map_of_mem Prod.fst he)
  have hne₁ : ∀ e ∈ l₁, e.2.id ≠ id := fun e he => by
    rw [hids e (by rw [hm]; exact List.mem_append_left _ he)]
    exact hl₁ e he
  have hne₂ : ∀ e ∈ l₂, e.2.id ≠ id := fun e he => by
    rw [hids e (by rw [hm]; exact List.mem_append_right _ (List.mem_cons_of_mem _ he))]
    exact hl₂ e he
  have hfold :
      TaskManager.RecoverIncompleteTasks st =
        List.foldl TaskManager.recoverStep
          (TaskManager.recoverStep (List.foldl TaskManager.recoverStep st l₁) (id, t)) l₂ := by
    show List.foldl TaskManager.recoverStep st (TaskManager.GetAllTasks st) = _
    rw [TaskManager.GetAllTasks, hm, List.foldl_append, List.foldl_cons]
  have hlookA :
      mapLookup (List.foldl TaskManager.recoverStep st l₁).tasks id = some t := by
    rw [recover_foldl_lookup_ne l₁ st id hne₁]; exact ht
  refine ⟨?_, ?_, ?_, ?_⟩
  · intro f
    constructor
    · intro hf; simp [TaskManager.recoverFile, hf]
    · intro hf; simp [TaskManager.recoverFile, hf]
  · exact fun u => ⟨rfl, rfl, rfl, rfl, rfl⟩
  · intro hstat
    have hinc : TaskManager.isIncomplete t = true := by
      rcases hstat with h | h <;> simp [TaskManager.isIncomplete, h]
    constructor
    · rw [hfold, recover_foldl_lookup_ne l₂ _ id hne₂]
      simp only [TaskManager.recoverStep, hinc, if_pos, TaskManager.UpdateTask]
      rw [show (TaskManager.recoverTask t).id = id from hid_t]
      exact mapLookup_mapInsert_self _ _ _
    · have hsv := recover_foldl_saved st.tasks st
      have hmemf : (id, t) ∈ st.tasks.filter (fun e => TaskManager.isIncomplete e.2) :=
        List.mem_filter.mpr ⟨hmem_t, hinc⟩
      have hmm : TaskManager.recoverTask t ∈
          (st.tasks.filter (fun e => TaskManager.isIncomplete e.2)).map
            (fun e => TaskManager.recoverTask e.2) :=
        List.mem_map_of_mem _ hmemf
      show _ ∈ (TaskManager.RecoverIncompleteTasks st).saved
      rw [show TaskManager.RecoverIncompleteTasks st =
            List.foldl TaskManager.recoverStep st st.tasks from rfl, hsv]
      exact List.mem_append_right _ hmm
  · intro hstat
    have hinc : TaskManager.isIncomplete t = false := by
      simp [TaskManager.isIncomplete, hstat]
    constructor
    · rw [hfold, recover_foldl_lookup_ne l₂ _ id hne₂]
      simp only [TaskManager.recoverStep, hinc]
      simp only [Bool.false_eq_true, if_false]
      exact hlookA
    · intro t' ht'
      rw [show TaskManager.RecoverIncompleteTasks st =
            List.foldl TaskManager.recoverStep st st.tasks from rfl,
        recover_foldl_saved st.tasks st] at ht'
      rcases List.mem_append.mp ht' with h | h
      · exact Or.inl h
      · right
        obtain ⟨e, hef, rfl⟩ := List.mem_map.mp h
        have he_m : e ∈ st.tasks := (List.mem_filter.mp hef).1
        have he_inc : TaskManager.isIncomplete e.2 = true := (List.mem_filter.mp hef).2
        rw [recoverTask_id, hids e he_m]
        intro heq
        rw [hm] at he_m
        rcases List.mem_append.mp he_m with h1 | h1
        · exact hl₁ e h1 heq
        · rcases List.mem_cons.mp h1 with rfl | h2
          · rw [hinc] at he_inc; exact Bool.false_ne_true he_inc
          · exact hl₂ e h2 heq

/-- C7 witness: a registry holding one downloading task with one failed and
one completed file; recovery resets the failed file, keeps the completed
one, zeroes the progress and persists the result. -/
theorem recoverIncompleteTasks_spec_witness :
    mapLookup
        (TaskManager.RecoverIncompleteTasks
          { tasks := [("t1".toList,
              { id := "t1".toList, urls := [], status := Status.downloading,
                files := [{ url := ['a'], filename := ['a'], status := Status.failed,
                            size := 5, downloaded := 0 },
                          { url := ['b'], filename := ['b'], status := Status.completed,
                            size := 2, downloaded := 2 }],
                progress := 40 })],
            saved := [] }).tasks
        "t1".toList =
      some { id := "t1".toList, urls := [], status := Status.pending,
             files := [{ url := ['a'], filename := ['a'], status := Status.pending,
                         size := 5, downloaded := 0 },
                       { url := ['b'], filename := ['b'], status := Status.completed,
                         size := 2, downloaded := 2 }],
             progress := 0 } := by
  have h := (recoverIncompleteTasks_spec
    { tasks := [("t1".toList,
        { id := "t1".toList, urls := [], status := Status.downloading,
          files := [{ url := ['a'], filename := ['a'], status := Status.failed,
                      size := 5, downloaded := 0 },
                    { url := ['b'], filename := ['b'], status := Status.completed,
                      size := 2, downloaded := 2 }],
          progress := 40 })],
      saved := [] }
    "t1".toList
    { id := "t1".toList, urls := [], status := Status.downloading,
      files := [{ url := ['a'], filename := ['a'], status := Status.failed,
                  size := 5, downloaded := 0 },
                { url := ['b'], filename := ['b'], status := Status.completed,
                  size := 2, downloaded := 2 }],
      progress := 40 }
    (by decide) (by decide)).2.2.1 (Or.inr rfl)
  exact h.1.trans (by decide)

/-! ## C10: filename extraction from a URL -/

theorem splitOnChar_ne_nil (sep : Char) : ∀ p : GoStr, splitOnChar sep p ≠ []
  | [] => by simp [splitOnChar]
  | c :: rest => by
    simp only [splitOnChar]
    split
    · simp
    · split <;> simp

theorem splitOnChar_eq_singleton_nil (sep : Char) :
    ∀ p : GoStr, splitOnChar sep p = [[]] → p = []
  | [] => fun _ => rfl
  | c :: rest => by
    simp only [splitOnChar]
    split
    · intro h
      exact absurd (List.cons.injEq _ _ _ _ ▸ h).2 (splitOnChar_ne_nil sep rest)
    · split
      · intro h
        simp at h
      · intro h
        simp at h

theorem fileSentinel_ne_nil (u : GoStr) : Downloader.fileSentinel u ≠ [] := by
  simp [Downloader.fileSentinel]

theorem splitOnChar_last_empty (sep : Char) :
    ∀ (p : GoStr) (s : GoStr), (splitOnChar sep p).getLast? = some s →
      (s = [] ↔ p = [] ∨ p.getLast? = some sep) := by
  intro p
  induction p with
  | nil =>
    intro s hs
    simp [splitOnChar] at hs
    simp [hs.symm]
  | cons c rest ih =>
    intro s hs
    by_cases hc : c = sep
    · rw [show splitOnChar sep (c :: rest) = [] :: splitOnChar sep rest by
        simp [splitOnChar, hc]] at hs
      cases hSr : splitOnChar sep rest with
      | nil => exact absurd hSr (splitOnChar_ne_nil sep rest)
      | cons a as =>
        rw [hSr, List.getLast?_cons_cons] at hs
        have hrec := ih s (by rw [hSr]; exact hs)
        cases rest with
        | nil =>
          have ha : a = [] ∧ as = [] := by
            have : splitOnChar sep ([] : GoStr) = [[]] := rfl
            rw [hSr] at this
            exact ⟨(List.cons.injEq _ _ _ _ ▸ this).1, (List.cons.injEq _ _ _ _ ▸ this).2⟩
          subst hc
          rcases ha with ⟨rfl, rfl⟩
          have hs' : s = [] := by simpa using hs
          subst hs'
          simp
        | cons d ds =>
          subst hc
          rw [List.getLast?_cons_cons]
          rw [hrec]
          simp
    · rw [show splitOnChar sep (c :: rest) =
          (match splitOnChar sep rest with
           | [] => [[c]]
           | s :: ss => (c :: s) :: ss) by
        simp [splitOnChar, hc]] at hs
      cases hSr : splitOnChar sep rest with
      | nil => exact absurd hSr (splitOnChar_ne_nil sep rest)
      | cons a as =>
        rw [hSr] at hs
        cases as with
        | nil =>
          simp only [List.getLast?] at hs
          have hsca : c :: a = s := by
            simpa using hs
          constructor
          · intro h; rw [h] at hsca; exact absurd hsca (List.cons_ne_nil c a)
          · intro h
            rcases h with h | h
            · simp at h
            · exfalso
              cases rest with
              | nil =>
                simp at h
                exact hc h
              | cons d ds =>
                rw [List.getLast?_cons_cons] at h
                have hrec := ih a (by rw [hSr]; rfl)
                have ha : a = [] := hrec.mpr (Or.inr h)
                rw [ha] at hSr
                exact List.cons_ne_nil d ds (splitOnChar_eq_singleton_nil sep _ hSr)
        | cons b bs =>
          rw [List.getLast?_cons_cons] at hs
          have hrec := ih s (by rw [hSr, List.getLast?_cons_cons]; exact hs)
          have hrest_ne : rest ≠ [] := by
            intro h
            rw [h] at hSr
            have : ([] : List GoStr) = [b] ++ bs := by
              have h2 : splitOnChar sep ([] : GoStr) = [[]] := rfl
              rw [hSr] at h2
              have := (List.cons.injEq _ _ _ _ ▸ h2).2
              simp [this]
            simp at this
          cases rest with
          | nil => exact absurd rfl hrest_ne
          | cons d ds =>
            rw [List.getLast?_cons_cons]
            rw [hrec]
            simp

theorem getLast?_filter (p : GoStr → Bool) :
    ∀ (l : List GoStr) (a : GoStr), l.getLast? = some a → p a = true →
      (l.filter p).getLast? = some a := by
  intro l
  induction l with
  | nil => intro a h _; simp at h
  | cons x xs ih =>
    intro a h hpa
    cases xs with
    | nil =>
      have hax : x = a := by simpa using h
      subst hax
      simp [List.filter_cons, hpa]
    | cons y ys =>
      rw [List.getLast?_cons_cons] at h
      have hmem : a ∈ y :: ys := List.mem_of_getLast?_eq_some h
      have hne : (y :: ys).filter p ≠ [] :=
        List.ne_nil_of_mem (List.mem_filter.mpr ⟨hmem, hpa⟩)
      have ihh := ih a h hpa
      show ((x :: y :: ys).filter p).getLast? = some a
      rw [List.filter_cons]
      by_cases hx : p x = true
      · rw [if_pos hx]
        cases hf : (y :: ys).filter p with
        | nil => exact absurd hf hne
        | cons z zs =>
          rw [List.getLast?_cons_cons]
          rw [hf] at ihh
          exact ihh
      · rw [if_neg hx]
        exact ihh

/-- C10: `Downloader.ExtractFilename` always returns a non-empty string;
it returns the `"file_" ++ len(u)` sentinel exactly when the URL fails to
parse, or the parsed path is empty, is `"/"`, or ends in `'/'`; otherwise
it returns the last segment of the `'/'`-split of the path, which is then
the last non-empty segment. -/
theorem extractFilename_characterization (parsed : Except Unit GoStr) (u : GoStr) :
    Downloader.ExtractFilename parsed u ≠ [] ∧
    (∀ e, parsed = Except.error e →
      Downloader.ExtractFilename parsed u = Downloader.fileSentinel u) ∧
    (∀ p, parsed = Except.ok p → (p = [] ∨ p.getLast? = some '/') →
      Downloader.ExtractFilename parsed u = Downloader.fileSentinel u) ∧
    (∀ p, parsed = Except.ok p → p ≠ [] → p.getLast? ≠ some '/' →
      ((splitOnChar '/' p).filter (fun x => !x.isEmpty)).getLast? =
        some (Downloader.ExtractFilename parsed u)) := by
  refine ⟨?_, ?_, ?_, ?_⟩
  · cases parsed with
    | error e => exact fileSentinel_ne_nil u
    | ok p =>
      simp only [Downloader.ExtractFilename]
      split
      · exact fileSentinel_ne_nil u
      · cases hS : (splitOnChar '/' p).getLast? with
        | none => exact fileSentinel_ne_nil u
        | some name =>
          by_cases hname : name = []
          · simp [hS, hname, fileSentinel_ne_nil u]
          · simp [hS, hname]
  · intro e he
    subst he
    rfl
  · intro p hp h
    subst hp
    rcases h with rfl | hsl
    · rfl
    · by_cases hp2 : p = [] ∨ p = ['/']
      · simp only [Downloader.ExtractFilename]
        rw [if_pos hp2]
      · simp only [Downloader.ExtractFilename]
        rw [if_neg hp2]
        cases hS : (splitOnChar '/' p).getLast? with
        | none =>
          exact absurd (List.getLast?_eq_none_iff.mp hS) (splitOnChar_ne_nil '/' p)
        | some s =>
          have hse : s = [] := (splitOnChar_last_empty '/' p s hS).mpr (Or.inr hsl)
          simp [hse]
  · intro p hp hne hnsl
    subst hp
    cases hS : (splitOnChar '/' p).getLast? with
    | none =>
      exact absurd (List.getLast?_eq_none_iff.mp hS) (splitOnChar_ne_nil '/' p)
    | some s =>
      have hsne : s ≠ [] := by
        intro h
        rcases (splitOnChar_last_empty '/' p s hS).mp h with h2 | h2
        · exact hne h2
        · exact hnsl h2
      have hcode : Downloader.ExtractFilename (Except.ok p) u = s := by
        simp only [Downloader.ExtractFilename]
        rw [if_neg (by
          rintro (rfl | rfl)
          · exact hne rfl
          · exact hnsl rfl)]
        simp [hS, hsne]
      rw [hcode]
      exact getLast?_filter _ _ s hS (by simp [hsne])

/-- C10 witness: the path `"/a/b.txt"` of `"http://x/a/b.txt"`; the
extracted filename is the last non-empty segment of the split path. -/
theorem extractFilename_characterization_witness :
    ((splitOnChar '/' ("/a/b.txt".toList)).filter (fun x => !x.isEmpty)).getLast? =
      some (Downloader.ExtractFilename (Except.ok ("/a/b.txt".toList))
        ("http://x/a/b.txt".toList)) :=
  (extractFilename_characterization _ _).2.2.2 _ rfl (by decide) (by decide)
